import Mathlib

/-!
Verification of the toolkit media-player synchronization core.

This file shallowly embeds the parts of the C++ sources that the checked
properties are about:

* `CircularAudioBuffer` (src/unnamed/part_001, part_004): a byte ring buffer
  with separate write/read cursors, modelled by its cursor state; the byte
  payloads are irrelevant to the cursor-arithmetic properties and are not
  tracked.
* `SyncMessage` / `SyncProtocol` (src/unnamed/part_002,
  src/src/network/SyncProtocol.cpp): the packed wire struct is modelled by its
  fields plus an explicit little-endian byte serialization; the `double`
  `seek_position` is represented by its 64-bit pattern, since the checksum and
  the wire format only ever see its bytes.
* `UDPSyncServer` (src/src/network/UDPSyncServer.cpp): datagram validation,
  the membership table, and the stale-client sweep.
* `SyncManager` (src/src/network/SyncManager.cpp): inbound message dispatch
  and the targeted send paths.
* `AudioManager` (src/src/network/SyncProtocol.cpp packed source,
  include/audio/AudioManager.h): the seek handler and the buffer-filling loop
  of the audio feeder thread.  `double` timestamps are modelled as exact
  rationals.

Machine integers are modelled as `Nat` with explicit `% 2 ^ 32` / `% 256`
reductions where the C++ code relies on fixed-width wraparound.
-/

/-! ### CircularAudioBuffer (src/unnamed/part_001 and part_004) -/

/-- Cursor state of `CircularAudioBuffer`: `capacity`, `write_pos`, `read_pos`.
The byte contents are not modelled; the claims concern only the cursor
arithmetic and the returned short counts. -/
structure RB where
  cap : Nat
  wpos : Nat
  rpos : Nat
deriving Repr, DecidableEq

/-- `available_read`: `(w >= r) ? (w - r) : (capacity - r + w)`. -/
def RB.available_read (b : RB) : Nat :=
  if b.rpos ≤ b.wpos then b.wpos - b.rpos else b.cap - b.rpos + b.wpos

/-- `available_write`: `capacity - available_read() - 1`. -/
def RB.available_write (b : RB) : Nat :=
  b.cap - b.available_read - 1

/-- `write(data, size)`: accepts `min(size, available_write())` bytes and
advances the write cursor modulo `capacity`; returns the new state and the
short count. -/
def RB.write (b : RB) (size : Nat) : RB × Nat :=
  ({ b with wpos := (b.wpos + min size b.available_write) % b.cap },
    min size b.available_write)

/-- `read(data, size)`: returns `min(size, available_read())` bytes and
advances the read cursor modulo `capacity`. -/
def RB.read (b : RB) (size : Nat) : RB × Nat :=
  ({ b with rpos := (b.rpos + min size b.available_read) % b.cap },
    min size b.available_read)

/-- `clear()`: reset both cursors to zero. -/
def RB.clear (b : RB) : RB :=
  { b with wpos := 0, rpos := 0 }

/-- Freshly constructed buffer: both cursors zero. -/
def RB.init (cap : Nat) : RB := ⟨cap, 0, 0⟩

/-- One operation of the claim's operation language. -/
inductive RBOp where
  | write (n : Nat)
  | read (n : Nat)
  | clear
deriving Repr, DecidableEq

/-- A buffer together with running totals of accepted and returned bytes. -/
structure RBTrace where
  buf : RB
  totalWritten : Nat
  totalRead : Nat
deriving Repr, DecidableEq

/-- Execute one operation, accumulating the returned short counts. -/
def RBstep (s : RBTrace) (op : RBOp) : RBTrace :=
  match op with
  | .write n => ⟨(s.buf.write n).1, s.totalWritten + (s.buf.write n).2, s.totalRead⟩
  | .read n => ⟨(s.buf.read n).1, s.totalWritten, s.totalRead + (s.buf.read n).2⟩
  | .clear => ⟨s.buf.clear, s.totalWritten, s.totalRead⟩

/-- Execute an operation sequence from the initial state. -/
def RBrun (cap : Nat) (ops : List RBOp) : RBTrace :=
  ops.foldl RBstep ⟨RB.init cap, 0, 0⟩

/-- Reachability invariant of the trace: cursors stay in range and the bytes
still unread never exceed the write/read balance. -/
def RBinv (cap : Nat) (s : RBTrace) : Prop :=
  s.buf.cap = cap ∧ s.buf.wpos < cap ∧ s.buf.rpos < cap ∧
    s.totalRead + s.buf.available_read ≤ s.totalWritten

lemma wrap_write_ar (cap w r tw : Nat) (hw : w < cap) (hr : r < cap)
    (htw : tw ≤ cap - (if r ≤ w then w - r else cap - r + w) - 1) :
    (if r ≤ (w + tw) % cap then (w + tw) % cap - r else cap - r + (w + tw) % cap)
        = (if r ≤ w then w - r else cap - r + w) + tw ∧
      (w + tw) % cap < cap := by
  rcases Nat.lt_or_ge (w + tw) cap with h | h
  · rw [Nat.mod_eq_of_lt h]
    split_ifs at * <;> omega
  · have hmod : (w + tw) % cap = w + tw - cap := by
      rw [Nat.mod_eq_sub_mod h, Nat.mod_eq_of_lt (by split_ifs at htw <;> omega)]
    rw [hmod]
    split_ifs at * <;> omega

lemma wrap_read_ar (cap w r tr : Nat) (hw : w < cap) (hr : r < cap)
    (htr : tr ≤ (if r ≤ w then w - r else cap - r + w)) :
    (if (r + tr) % cap ≤ w then w - (r + tr) % cap else cap - (r + tr) % cap + w) + tr
        = (if r ≤ w then w - r else cap - r + w) ∧
      (r + tr) % cap < cap := by
  rcases Nat.lt_or_ge (r + tr) cap with h | h
  · rw [Nat.mod_eq_of_lt h]
    split_ifs at * <;> omega
  · have hmod : (r + tr) % cap = r + tr - cap := by
      rw [Nat.mod_eq_sub_mod h, Nat.mod_eq_of_lt (by split_ifs at htr <;> omega)]
    rw [hmod]
    split_ifs at * <;> omega

lemma RB.write_spec (cap w r n : Nat) (hw : w < cap) (hr : r < cap) :
    ((RB.mk cap w r).write n).1.cap = cap ∧ ((RB.mk cap w r).write n).1.wpos < cap ∧
      ((RB.mk cap w r).write n).1.rpos < cap ∧
      ((RB.mk cap w r).write n).1.available_read
        = (RB.mk cap w r).available_read + ((RB.mk cap w r).write n).2 := by
  have h := wrap_write_ar cap w r (min n (cap - (if r ≤ w then w - r else cap - r + w) - 1))
    hw hr (Nat.min_le_right _ _)
  exact ⟨rfl, h.2, hr, h.1⟩

lemma RB.read_spec (cap w r n : Nat) (hw : w < cap) (hr : r < cap) :
    ((RB.mk cap w r).read n).1.cap = cap ∧ ((RB.mk cap w r).read n).1.wpos < cap ∧
      ((RB.mk cap w r).read n).1.rpos < cap ∧
      ((RB.mk cap w r).read n).1.available_read + ((RB.mk cap w r).read n).2
        = (RB.mk cap w r).available_read := by
  have h := wrap_read_ar cap w r (min n (if r ≤ w then w - r else cap - r + w))
    hw hr (Nat.min_le_right _ _)
  exact ⟨rfl, hw, h.2, h.1⟩

lemma RBstep_inv (cap : Nat) (s : RBTrace) (op : RBOp) (h : RBinv cap s) :
    RBinv cap (RBstep s op) := by
  obtain ⟨hcap, hw, hr, hbal⟩ := h
  rw [← hcap] at hw hr
  cases op with
  | write n =>
      have hs := RB.write_spec s.buf.cap s.buf.wpos s.buf.rpos n hw hr
      have h1 : (s.buf.write n).1.cap = s.buf.cap := hs.1
      have h2 : (s.buf.write n).1.wpos < s.buf.cap := hs.2.1
      have h3 : (s.buf.write n).1.rpos < s.buf.cap := hs.2.2.1
      have h4 : (s.buf.write n).1.available_read
          = s.buf.available_read + (s.buf.write n).2 := hs.2.2.2
      refine ⟨?_, ?_, ?_, ?_⟩ <;> simp only [RBstep] <;> omega
  | read n =>
      have hs := RB.read_spec s.buf.cap s.buf.wpos s.buf.rpos n hw hr
      have h1 : (s.buf.read n).1.cap = s.buf.cap := hs.1
      have h2 : (s.buf.read n).1.wpos < s.buf.cap := hs.2.1
      have h3 : (s.buf.read n).1.rpos < s.buf.cap := hs.2.2.1
      have h4 : (s.buf.read n).1.available_read + (s.buf.read n).2
          = s.buf.available_read := hs.2.2.2
      refine ⟨?_, ?_, ?_, ?_⟩ <;> simp only [RBstep] <;> omega
  | clear =>
      have h0 : (RB.mk s.buf.cap 0 0).available_read = 0 := by
        simp [RB.available_read]
      refine ⟨?_, ?_, ?_, ?_⟩ <;> simp only [RBstep, RB.clear] <;> omega

lemma RBrun_inv (cap : Nat) (hcap : 0 < cap) (ops : List RBOp) :
    RBinv cap (RBrun cap ops) := by
  have hgen : ∀ (l : List RBOp) (s : RBTrace), RBinv cap s → RBinv cap (l.foldl RBstep s) := by
    intro l
    induction l with
    | nil => intro s hs; exact hs
    | cons op rest ih =>
        intro s hs
        exact ih _ (RBstep_inv cap s op hs)
  refine hgen ops ⟨RB.init cap, 0, 0⟩ ⟨rfl, hcap, hcap, ?_⟩
  simp [RB.init, RB.available_read]

/-- C1. After any sequence of `write`/`read`/`clear` operations on a
`CircularAudioBuffer` of capacity `cap ≥ 1` started from the initial state,
`available_read() + available_write() = cap - 1`, and the total number of
bytes returned by `read` never exceeds the total accepted (short-counted) by
`write`.  (Capacity 0 is excluded: the C++ constructor admits it, but every
cursor update then computes `% 0`, which is undefined behaviour.) -/
theorem c1_ring_buffer_invariant (cap : Nat) (hcap : 0 < cap) (ops : List RBOp) :
    (RBrun cap ops).buf.available_read + (RBrun cap ops).buf.available_write = cap - 1 ∧
      (RBrun cap ops).totalRead ≤ (RBrun cap ops).totalWritten := by
  obtain ⟨hcapeq, hw, hr, hbal⟩ := RBrun_inv cap hcap ops
  have har : (RBrun cap ops).buf.available_read < cap := by
    simp only [RB.available_read]
    split_ifs <;> omega
  constructor
  · simp only [RB.available_write]
    omega
  · omega

/-- Witness for C1 at `cap = 8` and a concrete operation sequence. -/
theorem c1_ring_buffer_invariant_witness :
    (RBrun 8 [.write 5, .read 3, .write 6, .clear, .read 2]).buf.available_read +
        (RBrun 8 [.write 5, .read 3, .write 6, .clear, .read 2]).buf.available_write = 8 - 1 ∧
      (RBrun 8 [.write 5, .read 3, .write 6, .clear, .read 2]).totalRead ≤
        (RBrun 8 [.write 5, .read 3, .write 6, .clear, .read 2]).totalWritten :=
  c1_ring_buffer_invariant 8 (by decide) [.write 5, .read 3, .write 6, .clear, .read 2]

/-! ### SyncMessage and SyncProtocol (src/unnamed/part_002, SyncProtocol.cpp)

The packed struct layout is
`magic:u32 | type:u8 | sender_id:u32 | timestamp_us:u64 | frame_number:u32 |
 seek_position:double | client_name:char[32] | checksum:u32`,
65 bytes total; the checksum is the `uint32_t` byte-sum of the 61 bytes that
precede the `checksum` field.  The `double` is carried by its 64-bit pattern:
the checksum and the wire only ever see its bytes. -/

/-- Little-endian byte decomposition of a machine integer (n bytes). -/
def toLE (v : Nat) : Nat → List Nat
  | 0 => []
  | n + 1 => v % 256 :: toLE (v / 256) n

/-- Recompose a little-endian byte list into a `Nat`. -/
def fromLE : List Nat → Nat
  | [] => 0
  | b :: rest => b + 256 * fromLE rest

/-- Message type tags (enum `SyncMessageType`). -/
def HEARTBEAT : Nat := 0x01
def SYNC_CUE : Nat := 0x02
def SEEK_CUE : Nat := 0x03
def PAUSE_CUE : Nat := 0x04
def RESUME_CUE : Nat := 0x05
def CLIENT_DISCOVER : Nat := 0x06
def CLIENT_ANNOUNCE : Nat := 0x07

/-- The packed `SyncMessage` struct.  `client_name` is the 32-byte in-struct
array; `seek_position` is the 64-bit pattern of the `double`. -/
structure SyncMessage where
  magic : Nat
  type : Nat
  sender_id : Nat
  timestamp_us : Nat
  frame_number : Nat
  seek_position : Nat
  client_name : List Nat
  checksum : Nat
deriving Repr, DecidableEq

/-- The effect of `memset(client_name, 0, 32)` followed by
`strncpy(client_name, name, 31)`: at most 31 bytes of `name` (stopping at the
first NUL) and zero padding up to 32 bytes. -/
def clientNameField (name : List Nat) : List Nat :=
  (name.takeWhile (· ≠ 0)).take 31 ++
    List.replicate (32 - ((name.takeWhile (· ≠ 0)).take 31).length) 0

/-- The 61 bytes of the struct that precede the `checksum` field, in layout
order. -/
def SyncMessage.payloadBytes (m : SyncMessage) : List Nat :=
  toLE m.magic 4 ++ toLE m.type 1 ++ toLE m.sender_id 4 ++ toLE m.timestamp_us 8 ++
    toLE m.frame_number 4 ++ toLE m.seek_position 8 ++ m.client_name

/-- `SyncMessage::calculate_checksum`: store the `uint32_t` byte-sum of the
bytes preceding the checksum field. -/
def SyncMessage.calculate_checksum (m : SyncMessage) : SyncMessage :=
  { m with checksum := m.payloadBytes.sum % 2 ^ 32 }

/-- `SyncMessage::validate_checksum`: recompute the byte-sum and compare with
the stored checksum.  (The temporary zeroing of the field in the C++ code is
irrelevant to the sum: the field lies entirely after the summed range.) -/
def SyncMessage.validate_checksum (m : SyncMessage) : Bool :=
  m.payloadBytes.sum % 2 ^ 32 == m.checksum

/-- Full 65-byte wire form of the struct. -/
def SyncMessage.serialize (m : SyncMessage) : List Nat :=
  m.payloadBytes ++ toLE m.checksum 4

/-- Default-constructed `SyncMessage` (all fields zeroed, magic preset,
type HEARTBEAT). -/
def SyncMessage.mkDefault : SyncMessage :=
  { magic := 0xDEADBEEF, type := HEARTBEAT, sender_id := 0, timestamp_us := 0,
    frame_number := 0, seek_position := 0, client_name := List.replicate 32 0,
    checksum := 0 }

/-- `SyncProtocol::create_sync_cue`.  `ts` is the sampled microsecond
timestamp, an arbitrary value here. -/
def create_sync_cue (sender_id frame_number ts : Nat) (client_name : List Nat) :
    SyncMessage :=
  SyncMessage.calculate_checksum
    { SyncMessage.mkDefault with
        type := SYNC_CUE, sender_id := sender_id, timestamp_us := ts,
        frame_number := frame_number, client_name := clientNameField client_name }

/-- `SyncProtocol::create_seek_cue`; `position` is the 64-bit pattern of the
`double` argument. -/
def create_seek_cue (sender_id position ts : Nat) (client_name : List Nat) :
    SyncMessage :=
  SyncMessage.calculate_checksum
    { SyncMessage.mkDefault with
        type := SEEK_CUE, sender_id := sender_id, timestamp_us := ts,
        seek_position := position, client_name := clientNameField client_name }

/-- `SyncProtocol::create_pause_cue`. -/
def create_pause_cue (sender_id ts : Nat) (client_name : List Nat) : SyncMessage :=
  SyncMessage.calculate_checksum
    { SyncMessage.mkDefault with
        type := PAUSE_CUE, sender_id := sender_id, timestamp_us := ts,
        client_name := clientNameField client_name }

/-- `SyncProtocol::create_resume_cue`. -/
def create_resume_cue (sender_id ts : Nat) (client_name : List Nat) : SyncMessage :=
  SyncMessage.calculate_checksum
    { SyncMessage.mkDefault with
        type := RESUME_CUE, sender_id := sender_id, timestamp_us := ts,
        client_name := clientNameField client_name }

/-- `SyncProtocol::create_heartbeat`. -/
def create_heartbeat (sender_id ts : Nat) (client_name : List Nat) : SyncMessage :=
  SyncMessage.calculate_checksum
    { SyncMessage.mkDefault with
        type := HEARTBEAT, sender_id := sender_id, timestamp_us := ts,
        client_name := clientNameField client_name }

/-- `SyncProtocol::create_client_announce`. -/
def create_client_announce (sender_id ts : Nat) (client_name : List Nat) :
    SyncMessage :=
  SyncMessage.calculate_checksum
    { SyncMessage.mkDefault with
        type := CLIENT_ANNOUNCE, sender_id := sender_id, timestamp_us := ts,
        client_name := clientNameField client_name }

lemma validate_calculate (m : SyncMessage) :
    (m.calculate_checksum).validate_checksum = true := by
  simp [SyncMessage.calculate_checksum, SyncMessage.validate_checksum,
    SyncMessage.payloadBytes]

/-- C4. Every `SyncMessage` produced by any of the six factory functions, for
any sender id, payload value (frame number / seek-position bit pattern),
timestamp, and client name, satisfies `validate_checksum() = true`. -/
theorem c4_factory_messages_validate (sender frame pos ts : Nat) (name : List Nat) :
    (create_sync_cue sender frame ts name).validate_checksum = true ∧
      (create_seek_cue sender pos ts name).validate_checksum = true ∧
      (create_pause_cue sender ts name).validate_checksum = true ∧
      (create_resume_cue sender ts name).validate_checksum = true ∧
      (create_heartbeat sender ts name).validate_checksum = true ∧
      (create_client_announce sender ts name).validate_checksum = true :=
  ⟨validate_calculate _, validate_calculate _, validate_calculate _,
    validate_calculate _, validate_calculate _, validate_calculate _⟩

/-- Wire-level checksum validation: what `validate_checksum` computes on a
received 65-byte datagram reinterpreted as a `SyncMessage` (sum of the first
61 bytes as `uint32_t`, compared with the little-endian `checksum` field in
the last 4 bytes). -/
def validateBytes (bs : List Nat) : Bool :=
  (bs.take 61).sum % 2 ^ 32 == fromLE (bs.drop 61)

lemma toLE_length (v n : Nat) : (toLE v n).length = n := by
  induction n generalizing v with
  | zero => rfl
  | succ k ih => simp [toLE, ih]

lemma toLE_lt (v n : Nat) : ∀ b ∈ toLE v n, b < 256 := by
  induction n generalizing v with
  | zero => simp [toLE]
  | succ k ih =>
      intro b hb
      simp only [toLE, List.mem_cons] at hb
      rcases hb with h | h
      · subst h; exact Nat.mod_lt _ (by omega)
      · exact ih _ b h

lemma fromLE_toLE (v n : Nat) : fromLE (toLE v n) = v % 256 ^ n := by
  induction n generalizing v with
  | zero => simp [toLE, fromLE, Nat.mod_one]
  | succ k ih =>
      simp only [toLE, fromLE, ih]
      rw [Nat.pow_succ', Nat.mod_mul]

lemma sum_le_of_bytes (bs : List Nat) (h : ∀ b ∈ bs, b < 256) :
    bs.sum ≤ bs.length * 255 := by
  induction bs with
  | nil => simp
  | cons b t ih =>
      have hb : b < 256 := h b (List.mem_cons_self b t)
      have ht := ih (fun x hx => h x (List.mem_cons_of_mem b hx))
      simp only [List.sum_cons, List.length_cons]
      omega

lemma sum_set_getD (bs : List Nat) (i v : Nat) (hi : i < bs.length) :
    (bs.set i v).sum + bs.getD i 0 = bs.sum + v := by
  induction bs generalizing i with
  | nil => simp at hi
  | cons b t ih =>
      cases i with
      | zero => simp [List.set]; omega
      | succ j =>
          have hj : j < t.length := by simpa using hi
          have := ih j hj
          simp only [List.set, List.sum_cons, List.getD_cons_succ]
          omega

lemma getD_zero_lt (bs : List Nat) (i : Nat) (h : ∀ b ∈ bs, b < 256) :
    bs.getD i 0 < 256 := by
  induction bs generalizing i with
  | nil => simp [List.getD]
  | cons b t ih =>
      cases i with
      | zero => exact h b (List.mem_cons_self b t)
      | succ j =>
          simp only [List.getD_cons_succ]
          exact ih j (fun x hx => h x (List.mem_cons_of_mem b hx))

lemma clientNameField_length (name : List Nat) : (clientNameField name).length = 32 := by
  have h : ((name.takeWhile (· ≠ 0)).take 31).length ≤ 31 := by
    simp
  simp only [clientNameField, List.length_append, List.length_replicate]
  omega

lemma clientNameField_lt (name : List Nat) (h : ∀ b ∈ name, b < 256) :
    ∀ b ∈ clientNameField name, b < 256 := by
  intro b hb
  simp only [clientNameField, List.mem_append, List.mem_replicate] at hb
  rcases hb with hb | hb
  · exact h b (List.takeWhile_subset _ (List.mem_of_mem_take hb))
  · omega

lemma payloadBytes_length (m : SyncMessage) (h : m.client_name.length = 32) :
    m.payloadBytes.length = 61 := by
  simp [SyncMessage.payloadBytes, toLE_length, h]

lemma payloadBytes_lt (m : SyncMessage) (h : ∀ b ∈ m.client_name, b < 256) :
    ∀ b ∈ m.payloadBytes, b < 256 := by
  unfold SyncMessage.payloadBytes
  simp only [List.forall_mem_append]
  exact ⟨⟨⟨⟨⟨⟨toLE_lt _ _, toLE_lt _ _⟩, toLE_lt _ _⟩, toLE_lt _ _⟩, toLE_lt _ _⟩,
    toLE_lt _ _⟩, h⟩

/-- Checksummed flip lemma: for a message whose stored checksum is the byte-sum
of its payload bytes (as every factory-produced message has), replacing any
single pre-checksum wire byte by a different byte value makes wire-level
validation fail. -/
lemma flip_invalidates (m : SyncMessage)
    (hck : m.checksum = m.payloadBytes.sum % 2 ^ 32)
    (hlen : m.client_name.length = 32) (hlt : ∀ b ∈ m.client_name, b < 256)
    (i v : Nat) (hi : i < 61) (hv : v < 256)
    (hne : v ≠ m.serialize.getD i 0) :
    validateBytes (m.serialize.set i v) = false := by
  have hplen : m.payloadBytes.length = 61 := payloadBytes_length m hlen
  have hplt : ∀ b ∈ m.payloadBytes, b < 256 := payloadBytes_lt m hlt
  have hsum : m.payloadBytes.sum ≤ 61 * 255 := by
    have := sum_le_of_bytes m.payloadBytes hplt
    omega
  have hset : m.serialize.set i v = m.payloadBytes.set i v ++ toLE m.checksum 4 := by
    unfold SyncMessage.serialize
    exact List.set_append_left i v (by omega)
  have hgd : m.serialize.getD i 0 = m.payloadBytes.getD i 0 := by
    unfold SyncMessage.serialize
    simp only [List.getD_eq_getElem?_getD]
    rw [List.getElem?_append_left (by omega)]
  have hsetlen : (m.payloadBytes.set i v).length = 61 := by
    simp [hplen]
  have hnewlt : ∀ b ∈ m.payloadBytes.set i v, b < 256 := by
    intro b hb
    rcases List.mem_or_eq_of_mem_set hb with hb | hb
    · exact hplt b hb
    · omega
  have hnewsum : (m.payloadBytes.set i v).sum ≤ 61 * 255 := by
    have := sum_le_of_bytes _ hnewlt
    omega
  have hdiff : (m.payloadBytes.set i v).sum ≠ m.payloadBytes.sum := by
    have := sum_set_getD m.payloadBytes i v (by omega)
    have hgdlt : m.payloadBytes.getD i 0 < 256 := getD_zero_lt _ _ hplt
    rw [hgd] at hne
    omega
  rw [hset]
  unfold validateBytes
  rw [List.take_left' hsetlen, List.drop_left' hsetlen, fromLE_toLE]
  have h32 : (256 : Nat) ^ 4 = 2 ^ 32 := by norm_num
  have h1 : (m.payloadBytes.set i v).sum % 2 ^ 32 = (m.payloadBytes.set i v).sum :=
    Nat.mod_eq_of_lt (by omega)
  have h2 : m.checksum % 256 ^ 4 = m.payloadBytes.sum := by
    rw [h32, hck, Nat.mod_mod_of_dvd _ dvd_rfl]
    exact Nat.mod_eq_of_lt (by omega)
  rw [h1, h2]
  exact beq_eq_false_iff_ne.mpr hdiff

/-- C5. For every factory-constructed `SyncMessage` (with byte-valued client
name), changing any single byte of the 65-byte wire form other than a byte of
the checksum field (offsets 61..64) to a different byte value yields a message
for which wire-level checksum validation returns `false`. -/
theorem c5_single_byte_corruption_detected (sender frame pos ts : Nat)
    (name : List Nat) (hname : ∀ b ∈ name, b < 256) (m : SyncMessage)
    (hm : m ∈ [create_sync_cue sender frame ts name, create_seek_cue sender pos ts name,
      create_pause_cue sender ts name, create_resume_cue sender ts name,
      create_heartbeat sender ts name, create_client_announce sender ts name])
    (i v : Nat) (hi : i < 61) (hv : v < 256) (hne : v ≠ m.serialize.getD i 0) :
    validateBytes (m.serialize.set i v) = false := by
  have hfields : m.checksum = m.payloadBytes.sum % 2 ^ 32 ∧
      m.client_name = clientNameField name := by
    simp only [List.mem_cons, List.not_mem_nil, or_false] at hm
    rcases hm with rfl | rfl | rfl | rfl | rfl | rfl <;>
      constructor <;>
        simp [create_sync_cue, create_seek_cue, create_pause_cue, create_resume_cue,
          create_heartbeat, create_client_announce, SyncMessage.calculate_checksum,
          SyncMessage.payloadBytes, SyncMessage.mkDefault]
  refine flip_invalidates m hfields.1 ?_ ?_ i v hi hv hne
  · rw [hfields.2]; exact clientNameField_length name
  · rw [hfields.2]; exact clientNameField_lt name hname

/-- Witness for C5: flipping byte 0 (low byte of `magic`, 0xEF) of a concrete
heartbeat message to 0 makes validation fail. -/
theorem c5_single_byte_corruption_detected_witness :
    validateBytes (((create_heartbeat 7 123 [65, 66]).serialize).set 0 0) = false :=
  c5_single_byte_corruption_detected 7 0 0 123 [65, 66] (by decide)
    (create_heartbeat 7 123 [65, 66])
    (.tail _ (.tail _ (.tail _ (.tail _ (.head _))))) 0 0 (by decide) (by decide)
    (by decide)

/-! ### UDPSyncServer (src/src/network/UDPSyncServer.cpp)

The receive loop accepts a datagram only when `received == sizeof(SyncMessage)`
(65 bytes), the reinterpreted struct's `magic` equals `0xDEADBEEF`, and
`validate_checksum()` holds; it then updates the membership table and invokes
the registered callback.  Time is modelled in whole seconds of the steady
clock, matching the `duration_cast<seconds>` comparison in
`cleanup_stale_clients`. -/

/-- Protocol magic constant checked by the server loop. -/
def MAGIC : Nat := 0xDEADBEEF

/-- `CLIENT_TIMEOUT_SECONDS` from UDPSyncServer.h. -/
def CLIENT_TIMEOUT_SECONDS : Nat := 30

/-- Reinterpretation of a received 65-byte datagram as a `SyncMessage`
(`reinterpret_cast<SyncMessage*>(buffer)`), reading each field little-endian
at its packed offset. -/
def deserializeSyncMessage (bs : List Nat) : SyncMessage :=
  { magic := fromLE (bs.take 4),
    type := fromLE ((bs.drop 4).take 1),
    sender_id := fromLE ((bs.drop 5).take 4),
    timestamp_us := fromLE ((bs.drop 9).take 8),
    frame_number := fromLE ((bs.drop 17).take 4),
    seek_position := fromLE ((bs.drop 21).take 8),
    client_name := (bs.drop 29).take 32,
    checksum := fromLE (bs.drop 61) }

/-- A membership-table entry (`struct ConnectedClient`). -/
structure ConnectedClient where
  client_id : Nat
  name : List Nat
  ip_address : String
  port : Nat
  last_heartbeat : Nat
deriving Repr, DecidableEq

/-- `UDPSyncServer::update_client_list`: refresh the first entry with a
matching sender id, or append a new entry stamped with the current time. -/
def update_client_list (clients : List ConnectedClient) (msg : SyncMessage)
    (sender_ip : String) (now : Nat) (port : Nat) : List ConnectedClient :=
  match clients with
  | [] => [⟨msg.sender_id, msg.client_name, sender_ip, port, now⟩]
  | c :: rest =>
      if c.client_id = msg.sender_id then
        { c with last_heartbeat := now, name := msg.client_name,
                 ip_address := sender_ip } :: rest
      else
        c :: update_client_list rest msg sender_ip now port

/-- `UDPSyncServer::cleanup_stale_clients`: drop every entry whose last-seen
time lies more than `CLIENT_TIMEOUT_SECONDS` seconds in the past. -/
def cleanup_stale_clients (now : Nat) (clients : List ConnectedClient) :
    List ConnectedClient :=
  clients.filter (fun c => ¬ (now - c.last_heartbeat > CLIENT_TIMEOUT_SECONDS))

/-- A datagram as seen by one iteration of `server_loop`: the received bytes,
the sender address, and the steady-clock second at which it arrives. -/
structure Datagram where
  bytes : List Nat
  senderIp : String
  arrival : Nat
deriving Repr, DecidableEq

/-- The validity checks of `server_loop`: exact size, magic, checksum. -/
def validDatagram (d : Datagram) : Bool :=
  d.bytes.length == 65 && (deserializeSyncMessage d.bytes).magic == MAGIC &&
    validateBytes d.bytes

/-- One iteration of `server_loop` on a received datagram: state is the
membership table plus the list of `(message, sender_ip)` pairs delivered to
the registered callback so far. -/
def serverLoopStep (port : Nat)
    (st : List ConnectedClient × List (SyncMessage × String)) (d : Datagram) :
    List ConnectedClient × List (SyncMessage × String) :=
  if d.bytes.length = 65 then
    let msg := deserializeSyncMessage d.bytes
    if msg.magic = MAGIC ∧ validateBytes d.bytes then
      (update_client_list st.1 msg d.senderIp d.arrival port,
        st.2 ++ [(msg, d.senderIp)])
    else
      st
  else
    st

/-- `server_loop` over a finite sequence of received datagrams, starting from
an empty membership table and no deliveries. -/
def serverLoopRun (port : Nat) (ds : List Datagram) :
    List ConnectedClient × List (SyncMessage × String) :=
  ds.foldl (serverLoopStep port) ([], [])

lemma serverLoopRun_deliveries_aux (port : Nat) (ds : List Datagram)
    (st : List ConnectedClient × List (SyncMessage × String)) :
    (ds.foldl (serverLoopStep port) st).2
      = st.2 ++ (ds.filter validDatagram).map
          (fun d => (deserializeSyncMessage d.bytes, d.senderIp)) := by
  induction ds generalizing st with
  | nil => simp
  | cons d rest ih =>
      rw [List.foldl_cons, ih]
      by_cases h1 : d.bytes.length = 65
      · by_cases h2 : (deserializeSyncMessage d.bytes).magic = MAGIC ∧
            validateBytes d.bytes = true
        · have hv : validDatagram d = true := by
            simp [validDatagram, h1, h2.1, h2.2]
          simp [serverLoopStep, h1, h2, hv]
        · have hv : validDatagram d = false := by
            simp only [validDatagram, Bool.and_eq_true, beq_iff_eq] at *
            by_cases hm : (deserializeSyncMessage d.bytes).magic = MAGIC <;>
              by_cases hc : validateBytes d.bytes = true <;>
              simp_all
          simp [serverLoopStep, h1, h2, hv]
      · have hv : validDatagram d = false := by
          simp [validDatagram, h1]
        simp [serverLoopStep, h1, hv]

/-- C6. The receive loop delivers to the registered callback exactly those
datagrams that are 65 (`sizeof(SyncMessage)`) bytes long, carry
`magic = 0xDEADBEEF`, and pass checksum validation, in arrival order and
paired with the sender's IP; every datagram failing any of the checks is
dropped and contributes nothing to the delivered sequence. -/
theorem c6_server_delivers_only_valid_datagrams (port : Nat) (ds : List Datagram) :
    (serverLoopRun port ds).2
      = (ds.filter validDatagram).map
          (fun d => (deserializeSyncMessage d.bytes, d.senderIp)) := by
  have h := serverLoopRun_deliveries_aux port ds ([], [])
  simpa [serverLoopRun] using h

/-- A membership-affecting event: a valid message being processed
(`update_client_list`) or one pass of the sweep loop
(`cleanup_stale_clients`). -/
inductive ServerEvent where
  | message (msg : SyncMessage) (ip : String) (now : Nat)
  | sweep (now : Nat)

/-- Apply one membership event to the client table. -/
def serverEventStep (port : Nat) (cs : List ConnectedClient) (e : ServerEvent) :
    List ConnectedClient :=
  match e with
  | .message msg ip now => update_client_list cs msg ip now port
  | .sweep now => cleanup_stale_clients now cs

/-- Run a sequence of membership events from the empty table. -/
def runServerEvents (port : Nat) (events : List ServerEvent) :
    List ConnectedClient :=
  events.foldl (serverEventStep port) []

lemma update_fresh (cs : List ConnectedClient) (msg : SyncMessage) (ip : String)
    (now port : Nat) (h : ∀ c ∈ cs, c.client_id ≠ msg.sender_id) :
    update_client_list cs msg ip now port
      = cs ++ [⟨msg.sender_id, msg.client_name, ip, port, now⟩] := by
  induction cs with
  | nil => rfl
  | cons c rest ih =>
      have hc := h c (List.mem_cons_self c rest)
      simp only [update_client_list, if_neg hc, List.cons_append, List.cons.injEq,
        true_and]
      exact ih (fun x hx => h x (List.mem_cons_of_mem c hx))

lemma map_if_no_match (rest : List ConnectedClient) (i : Nat)
    (f : ConnectedClient → ConnectedClient)
    (h : ∀ x ∈ rest, x.client_id ≠ i) :
    rest.map (fun c => if c.client_id = i then f c else c) = rest := by
  induction rest with
  | nil => rfl
  | cons c t ih =>
      have hc := h c (List.mem_cons_self c t)
      simp only [List.map_cons, if_neg hc, List.cons.injEq, true_and]
      exact ih (fun x hx => h x (List.mem_cons_of_mem c hx))

lemma update_match_eq_map (cs : List ConnectedClient) (msg : SyncMessage)
    (ip : String) (now port : Nat)
    (hnd : (cs.map (·.client_id)).Nodup)
    (h : ∃ c ∈ cs, c.client_id = msg.sender_id) :
    update_client_list cs msg ip now port
      = cs.map (fun c =>
          if c.client_id = msg.sender_id then
            { c with name := msg.client_name, ip_address := ip,
                     last_heartbeat := now }
          else c) := by
  induction cs with
  | nil => simp at h
  | cons c rest ih =>
      simp only [List.map_cons, List.nodup_cons, List.mem_map] at hnd
      by_cases hc : c.client_id = msg.sender_id
      · have hrest : ∀ x ∈ rest, x.client_id ≠ msg.sender_id := by
          intro x hx hxid
          exact hnd.1 ⟨x, hx, by omega⟩
        simp only [update_client_list, if_pos hc, List.map_cons, if_pos hc,
          List.cons.injEq, true_and]
        exact (map_if_no_match rest msg.sender_id _ hrest).symm
      · have hrest : ∃ x ∈ rest, x.client_id = msg.sender_id := by
          rcases h with ⟨x, hx, hxid⟩
          rcases List.mem_cons.mp hx with rfl | hx'
          · exact absurd hxid hc
          · exact ⟨x, hx', hxid⟩
        simp only [update_client_list, if_neg hc, List.map_cons, if_neg hc,
          List.cons.injEq, true_and]
        exact ih hnd.2 hrest

lemma update_ids_match (cs : List ConnectedClient) (msg : SyncMessage)
    (ip : String) (now port : Nat)
    (h : ∃ c ∈ cs, c.client_id = msg.sender_id) :
    (update_client_list cs msg ip now port).map (·.client_id)
      = cs.map (·.client_id) := by
  induction cs with
  | nil => simp at h
  | cons c rest ih =>
      by_cases hc : c.client_id = msg.sender_id
      · simp [update_client_list, if_pos hc]
      · have hrest : ∃ x ∈ rest, x.client_id = msg.sender_id := by
          rcases h with ⟨x, hx, hxid⟩
          rcases List.mem_cons.mp hx with rfl | hx'
          · exact absurd hxid hc
          · exact ⟨x, hx', hxid⟩
        simp only [update_client_list, if_neg hc, List.map_cons]
        rw [ih hrest]

lemma update_ids_nodup (cs : List ConnectedClient) (msg : SyncMessage)
    (ip : String) (now port : Nat) (hnd : (cs.map (·.client_id)).Nodup) :
    ((update_client_list cs msg ip now port).map (·.client_id)).Nodup := by
  by_cases h : ∃ c ∈ cs, c.client_id = msg.sender_id
  · rw [update_ids_match cs msg ip now port h]
    exact hnd
  · push_neg at h
    rw [update_fresh cs msg ip now port h]
    simp only [List.map_append, List.map_cons, List.map_nil, List.nodup_append]
    refine ⟨hnd, List.nodup_singleton _, ?_⟩
    intro x hx
    rcases List.mem_map.mp hx with ⟨c, hc, rfl⟩
    simp only [List.mem_singleton]
    exact fun hEq => h c hc (by omega)

lemma cleanup_ids_nodup (now : Nat) (cs : List ConnectedClient)
    (hnd : (cs.map (·.client_id)).Nodup) :
    ((cleanup_stale_clients now cs).map (·.client_id)).Nodup :=
  ((List.filter_sublist cs).map _).nodup hnd

lemma runServerEvents_nodup (port : Nat) (events : List ServerEvent) :
    ((runServerEvents port events).map (·.client_id)).Nodup := by
  have hgen : ∀ (l : List ServerEvent) (cs : List ConnectedClient),
      (cs.map (·.client_id)).Nodup →
        ((l.foldl (serverEventStep port) cs).map (·.client_id)).Nodup := by
    intro l
    induction l with
    | nil => intro cs h; exact h
    | cons e rest ih =>
        intro cs h
        refine ih _ ?_
        cases e with
        | message msg ip now => exact update_ids_nodup cs msg ip now port h
        | sweep now => exact cleanup_ids_nodup now cs h
  exact hgen events [] (by simp)

/-- C7. Over every sequence of processed messages and sweep passes starting
from the empty table: sender ids are pairwise distinct (at most one entry per
id); a message from an unknown id appends exactly one new entry stamped with
the current time; a message from a known id leaves the length unchanged and
only rewrites that entry's name, IP, and last-seen time; and a sweep retains
exactly the entries seen within the last `CLIENT_TIMEOUT_SECONDS` (30)
seconds, evicting an entry only when more than 30 seconds have elapsed. -/
theorem c7_membership_single_entry_per_id (port : Nat) (events : List ServerEvent) :
    ((runServerEvents port events).map (·.client_id)).Nodup ∧
      (∀ (msg : SyncMessage) (ip : String) (now : Nat),
        (∀ c ∈ runServerEvents port events, c.client_id ≠ msg.sender_id) →
          update_client_list (runServerEvents port events) msg ip now port
            = runServerEvents port events
                ++ [⟨msg.sender_id, msg.client_name, ip, port, now⟩]) ∧
      (∀ (msg : SyncMessage) (ip : String) (now : Nat),
        (∃ c ∈ runServerEvents port events, c.client_id = msg.sender_id) →
          (update_client_list (runServerEvents port events) msg ip now port).length
              = (runServerEvents port events).length ∧
            update_client_list (runServerEvents port events) msg ip now port
              = (runServerEvents port events).map (fun c =>
                  if c.client_id = msg.sender_id then
                    { c with name := msg.client_name, ip_address := ip,
                             last_heartbeat := now }
                  else c)) ∧
      (∀ (now : Nat) (c : ConnectedClient),
        c ∈ cleanup_stale_clients now (runServerEvents port events) ↔
          c ∈ runServerEvents port events ∧
            now - c.last_heartbeat ≤ CLIENT_TIMEOUT_SECONDS) := by
  refine ⟨runServerEvents_nodup port events, ?_, ?_, ?_⟩
  · intro msg ip now h
    exact update_fresh _ msg ip now port h
  · intro msg ip now h
    have hmap := update_match_eq_map _ msg ip now port
      (runServerEvents_nodup port events) h
    refine ⟨?_, hmap⟩
    rw [hmap, List.length_map]
  · intro now c
    simp only [cleanup_stale_clients, List.mem_filter, decide_not,
      Bool.not_eq_eq_eq_not, Bool.not_true, decide_eq_false_iff_not, gt_iff_lt,
      Nat.not_lt, decide_eq_true_eq]

/-- Witness for C7 at a concrete event sequence and a concrete fresh-id
message. -/
theorem c7_membership_single_entry_per_id_witness :
    ((runServerEvents 9999
        [ServerEvent.message ⟨0xDEADBEEF, 1, 42, 0, 0, 0, [], 0⟩ "10.0.0.1" 0]).map
          (·.client_id)).Nodup ∧
      update_client_list
          (runServerEvents 9999
            [ServerEvent.message ⟨0xDEADBEEF, 1, 42, 0, 0, 0, [], 0⟩ "10.0.0.1" 0])
          ⟨0xDEADBEEF, 1, 7, 0, 0, 0, [], 0⟩ "10.0.0.2" 5 9999
        = runServerEvents 9999
            [ServerEvent.message ⟨0xDEADBEEF, 1, 42, 0, 0, 0, [], 0⟩ "10.0.0.1" 0]
            ++ [⟨7, [], "10.0.0.2", 9999, 5⟩] := by
  have h := c7_membership_single_entry_per_id 9999
    [ServerEvent.message ⟨0xDEADBEEF, 1, 42, 0, 0, 0, [], 0⟩ "10.0.0.1" 0]
  exact ⟨h.1, h.2.1 ⟨0xDEADBEEF, 1, 7, 0, 0, 0, [], 0⟩ "10.0.0.2" 5 (by decide)⟩

/-! ### SyncManager (src/src/network/SyncManager.cpp) -/

/-- Which orchestrator callbacks are registered on the `SyncManager`
(`on_sync_cue`, `on_seek_cue`, `on_pause_cue`, `on_resume_cue`,
`on_client_connected`). -/
structure Callbacks where
  has_sync : Bool
  has_seek : Bool
  has_pause : Bool
  has_resume : Bool
  has_client : Bool
deriving Repr, DecidableEq

/-- One observable callback invocation made by `handle_sync_message`.
`seekCue` carries the 64-bit pattern of the `double` position. -/
inductive CallbackInvocation where
  | syncCue (frame : Nat)
  | seekCue (position : Nat)
  | pauseCue
  | resumeCue
  | clientConnected (id : Nat) (name : List Nat) (ip : String)
deriving Repr, DecidableEq

/-- `SyncManager::handle_sync_message`: drop own messages, then dispatch by
type to whichever callback is set.  `HEARTBEAT` and `CLIENT_DISCOVER` (and any
other tag) trigger no callback.  Returns the list of invocations (at most
one). -/
def handle_sync_message (my_client_id : Nat) (cbs : Callbacks) (msg : SyncMessage)
    (sender_ip : String) : List CallbackInvocation :=
  if msg.sender_id = my_client_id then
    []
  else if msg.type = SYNC_CUE then
    if cbs.has_sync then [.syncCue msg.frame_number] else []
  else if msg.type = SEEK_CUE then
    if cbs.has_seek then [.seekCue msg.seek_position] else []
  else if msg.type = PAUSE_CUE then
    if cbs.has_pause then [.pauseCue] else []
  else if msg.type = RESUME_CUE then
    if cbs.has_resume then [.resumeCue] else []
  else if msg.type = CLIENT_ANNOUNCE then
    if cbs.has_client then [.clientConnected msg.sender_id msg.client_name sender_ip]
    else []
  else
    []

/-- C8. A message whose `sender_id` equals the `SyncManager`'s own client id
triggers no orchestrator callback, whatever its type, payload, and whichever
callbacks are registered. -/
theorem c8_own_messages_suppressed (my_client_id : Nat) (cbs : Callbacks)
    (msg : SyncMessage) (sender_ip : String)
    (h : msg.sender_id = my_client_id) :
    handle_sync_message my_client_id cbs msg sender_ip = [] := by
  simp [handle_sync_message, h]

/-- Witness for C8 at a concrete own-id seek cue with every callback set. -/
theorem c8_own_messages_suppressed_witness :
    handle_sync_message 42 ⟨true, true, true, true, true⟩
        ⟨0xDEADBEEF, 3, 42, 0, 0, 0, [], 0⟩ "10.0.0.1" = [] :=
  c8_own_messages_suppressed 42 ⟨true, true, true, true, true⟩
    ⟨0xDEADBEEF, 3, 42, 0, 0, 0, [], 0⟩ "10.0.0.1" (by decide)

/-- `struct NetworkTarget` from NetworkConfig.h. -/
structure NetworkTarget where
  ip_address : String
  port : Nat
  name : String
  enabled : Bool
deriving Repr, DecidableEq

/-- The fields of `struct NetworkConfig` that the targeted send paths read. -/
structure NetworkConfig where
  listen_port : Nat
  client_name : String
  enable_broadcast : Bool
  targets : List NetworkTarget
deriving Repr, DecidableEq

/-- `SyncManager::get_target_ips`: the IP of every enabled target, in order. -/
def get_target_ips (cfg : NetworkConfig) : List String :=
  (cfg.targets.filter (·.enabled)).map (·.ip_address)

/-- `UDPSyncSender::send_to_addresses`: attempt every address, returning
whether all unicasts succeeded.  `unicast ip` is the outcome
`send_to_address` would report for `ip`. -/
def send_to_addresses (unicast : String → Bool) (addresses : List String) : Bool :=
  addresses.foldl (fun all_success address =>
    if unicast address then all_success else false) true

/-- Shared tail of the four `SyncManager::send_targeted_*` functions after the
message is built: optionally broadcast (result discarded), then unicast to the
enabled targets if any exist — reporting their combined outcome — otherwise
report the `enable_broadcast` flag.  `bcast` is the outcome
`broadcast_message` would report. -/
def targeted_send_tail (enabled : Bool) (cfg : NetworkConfig)
    (unicast : String → Bool) (bcast : Bool) : Bool :=
  if !enabled then
    false
  else
    let _broadcast_result := if cfg.enable_broadcast then bcast else false
    let target_ips := get_target_ips cfg
    if !target_ips.isEmpty then
      send_to_addresses unicast target_ips
    else
      cfg.enable_broadcast

/-- `SyncManager::send_targeted_sync_cue`. -/
def send_targeted_sync_cue (enabled : Bool) (cfg : NetworkConfig)
    (unicast : String → Bool) (bcast : Bool) (my_client_id frame_number ts : Nat)
    (my_client_name : List Nat) : Bool :=
  let _msg := create_sync_cue my_client_id frame_number ts my_client_name
  targeted_send_tail enabled cfg unicast bcast

/-- `SyncManager::send_targeted_seek_cue`; `position` is the 64-bit pattern of
the `double`. -/
def send_targeted_seek_cue (enabled : Bool) (cfg : NetworkConfig)
    (unicast : String → Bool) (bcast : Bool) (my_client_id position ts : Nat)
    (my_client_name : List Nat) : Bool :=
  let _msg := create_seek_cue my_client_id position ts my_client_name
  targeted_send_tail enabled cfg unicast bcast

/-- `SyncManager::send_targeted_pause_cue`. -/
def send_targeted_pause_cue (enabled : Bool) (cfg : NetworkConfig)
    (unicast : String → Bool) (bcast : Bool) (my_client_id ts : Nat)
    (my_client_name : List Nat) : Bool :=
  let _msg := create_pause_cue my_client_id ts my_client_name
  targeted_send_tail enabled cfg unicast bcast

/-- `SyncManager::send_targeted_resume_cue`. -/
def send_targeted_resume_cue (enabled : Bool) (cfg : NetworkConfig)
    (unicast : String → Bool) (bcast : Bool) (my_client_id ts : Nat)
    (my_client_name : List Nat) : Bool :=
  let _msg := create_resume_cue my_client_id ts my_client_name
  targeted_send_tail enabled cfg unicast bcast

lemma send_to_addresses_eq_all (unicast : String → Bool) (addresses : List String) :
    send_to_addresses unicast addresses = addresses.all unicast := by
  have hgen : ∀ (l : List String) (acc : Bool),
      l.foldl (fun all_success address =>
          if unicast address then all_success else false) acc
        = (acc && l.all unicast) := by
    intro l
    induction l with
    | nil => intro acc; simp
    | cons a t ih =>
        intro acc
        rw [List.foldl_cons, ih]
        by_cases h : unicast a = true <;> simp [h]
  rw [send_to_addresses, hgen, Bool.true_and]

lemma targeted_send_tail_spec (cfg : NetworkConfig) (unicast : String → Bool)
    (b1 b2 : Bool) :
    targeted_send_tail true cfg unicast b1 = targeted_send_tail true cfg unicast b2 ∧
      (get_target_ips cfg ≠ [] →
        targeted_send_tail true cfg unicast b1 = (get_target_ips cfg).all unicast) ∧
      (get_target_ips cfg = [] →
        targeted_send_tail true cfg unicast b1 = cfg.enable_broadcast) := by
  by_cases h : get_target_ips cfg = []
  · simp [targeted_send_tail, h]
  · have hne : (get_target_ips cfg).isEmpty = false := by
      simpa [List.isEmpty_iff] using h
    simp [targeted_send_tail, hne, h, send_to_addresses_eq_all]

/-- C10. For the four targeted-send functions with the manager enabled: the
broadcast outcome never influences the returned value (it is discarded); when
at least one enabled target exists the result is exactly "every unicast send
succeeded"; and when no enabled target exists the result is the
`enable_broadcast` configuration flag, regardless of the broadcast outcome. -/
theorem c10_targeted_send_result (cfg : NetworkConfig) (unicast : String → Bool)
    (b1 b2 : Bool) (my_id frame pos ts : Nat) (name : List Nat) :
    (send_targeted_sync_cue true cfg unicast b1 my_id frame ts name
        = send_targeted_sync_cue true cfg unicast b2 my_id frame ts name ∧
      send_targeted_seek_cue true cfg unicast b1 my_id pos ts name
        = send_targeted_seek_cue true cfg unicast b2 my_id pos ts name ∧
      send_targeted_pause_cue true cfg unicast b1 my_id ts name
        = send_targeted_pause_cue true cfg unicast b2 my_id ts name ∧
      send_targeted_resume_cue true cfg unicast b1 my_id ts name
        = send_targeted_resume_cue true cfg unicast b2 my_id ts name) ∧
      (get_target_ips cfg ≠ [] →
        send_targeted_sync_cue true cfg unicast b1 my_id frame ts name
            = (get_target_ips cfg).all unicast ∧
          send_targeted_seek_cue true cfg unicast b1 my_id pos ts name
            = (get_target_ips cfg).all unicast ∧
          send_targeted_pause_cue true cfg unicast b1 my_id ts name
            = (get_target_ips cfg).all unicast ∧
          send_targeted_resume_cue true cfg unicast b1 my_id ts name
            = (get_target_ips cfg).all unicast) ∧
      (get_target_ips cfg = [] →
        send_targeted_sync_cue true cfg unicast b1 my_id frame ts name
            = cfg.enable_broadcast ∧
          send_targeted_seek_cue true cfg unicast b1 my_id pos ts name
            = cfg.enable_broadcast ∧
          send_targeted_pause_cue true cfg unicast b1 my_id ts name
            = cfg.enable_broadcast ∧
          send_targeted_resume_cue true cfg unicast b1 my_id ts name
            = cfg.enable_broadcast) := by
  obtain ⟨h1, h2, h3⟩ := targeted_send_tail_spec cfg unicast b1 b2
  refine ⟨⟨h1, h1, h1, h1⟩, fun h => ⟨h2 h, h2 h, h2 h, h2 h⟩,
    fun h => ⟨h3 h, h3 h, h3 h, h3 h⟩⟩

/-- Witness for C10: a configuration with one enabled and one disabled target,
a failing broadcast outcome, and all-success unicast. -/
theorem c10_targeted_send_result_witness :
    send_targeted_sync_cue true
        ⟨9999, "a", true, [⟨"10.0.0.2", 9999, "b", true⟩, ⟨"10.0.0.3", 9999, "c", false⟩]⟩
        (fun _ => true) false 1 2 4 []
      = (get_target_ips
          ⟨9999, "a", true, [⟨"10.0.0.2", 9999, "b", true⟩, ⟨"10.0.0.3", 9999, "c", false⟩]⟩).all
          (fun _ => true) :=
  ((c10_targeted_send_result
      ⟨9999, "a", true, [⟨"10.0.0.2", 9999, "b", true⟩, ⟨"10.0.0.3", 9999, "c", false⟩]⟩
      (fun _ => true) false true 1 2 3 4 []).2.1 (by decide)).1

/-! ### AudioManager feeder thread (AudioManager.h, SyncProtocol.cpp packed
source lines 309..386)

`double` timestamps are modelled as exact rationals.  The feeder loop
(`audio_thread_func`) services a pending seek (`handle_audio_seek`) and then
tops up the ring buffer (`fill_audio_buffer`).  The fill loop is translated
with an explicit fuel argument (`cache length - index`, an upper bound on its
iterations, since every iteration that continues advances the index); the
translation also records, as ghost data, one `FillEvent` per chunk actually
copied. -/

/-- `AUDIO_SYNC_THRESHOLD = 0.040` (40 ms). -/
def AUDIO_SYNC_THRESHOLD : ℚ := (40 : ℚ) / 1000

/-- `AUDIO_RESYNC_THRESHOLD = 1.0`; declared in the header but never consulted
by the feeder loop. -/
def AUDIO_RESYNC_THRESHOLD : ℚ := 1

/-- `AUDIO_BUFFER_SIZE = 192000`. -/
def AUDIO_BUFFER_SIZE : Nat := 192000

/-- A cached decoded chunk (`struct AudioFrame`): byte size, presentation
timestamp in seconds, sample duration. -/
structure AudioFrame where
  size : Nat
  pts : ℚ
  duration : Int
deriving Repr, DecidableEq

instance : Inhabited AudioFrame := ⟨⟨0, 0, 0⟩⟩

/-- `AudioClock`: last stored `pts` plus the wall-clock instant (`base_time`)
at which it was stored. -/
structure AudioClock where
  pts : ℚ
  base_time : ℚ
deriving Repr, DecidableEq

/-- `AudioClock::set(timestamp)` at wall-clock instant `now`. -/
def AudioClock.set (_c : AudioClock) (timestamp now : ℚ) : AudioClock :=
  ⟨timestamp, now⟩

/-- `AudioClock::get()` at wall-clock instant `now`. -/
def AudioClock.get (c : AudioClock) (now : ℚ) : ℚ :=
  c.pts + (now - c.base_time)

/-- The `AudioManager` state touched by the seek/fill paths. -/
structure AudioManagerState where
  audio_buffer : RB
  audio_frame_cache : List AudioFrame
  audio_cache_index : Nat
  audio_clock : AudioClock
  seek_requested : Bool
  seek_target : ℚ
  current_video_time : ℚ
deriving Repr, DecidableEq

/-- The index search of `handle_audio_seek`: position of the first cached
chunk with `pts >= target - 0.05`, if any. -/
def findSeekIndexAux (cache : List AudioFrame) (target : ℚ) : Option Nat :=
  match cache with
  | [] => none
  | f :: rest =>
      if f.pts ≥ target - 5 / 100 then some 0
      else (findSeekIndexAux rest target).map (· + 1)

/-- `AudioManager::handle_audio_seek`: clear the ring buffer, then set the
cache index to the first chunk with `pts >= seek_target - 0.05` (0 when no
chunk qualifies). -/
def handle_audio_seek (st : AudioManagerState) : AudioManagerState :=
  { st with
      audio_buffer := st.audio_buffer.clear,
      audio_cache_index := (findSeekIndexAux st.audio_frame_cache st.seek_target).getD 0 }

/-- `AudioManager::sync_to_position` at wall-clock instant `now`: record the
seek request and re-anchor the audio clock to `position`. -/
def sync_to_position (st : AudioManagerState) (position now : ℚ) : AudioManagerState :=
  { st with
      seek_target := position,
      seek_requested := true,
      audio_clock := st.audio_clock.set position now }

/-- Ghost record of one chunk copy performed by the fill loop: the cache index
copied, its timestamp, and `available_read`/`available_write` immediately
before the copy. -/
structure FillEvent where
  idx : Nat
  pts : ℚ
  arBefore : Nat
  awBefore : Nat
deriving Repr, DecidableEq

/-- The `while` loop of `fill_audio_buffer`, with explicit fuel: while the
index is in range and `available_write() > 4096`, stop if the next chunk's
timestamp exceeds `video_time + AUDIO_SYNC_THRESHOLD`, otherwise write the
chunk and advance the index (stopping if the write accepted nothing). -/
def fill_loop : Nat → RB → List AudioFrame → Nat → ℚ → RB × Nat × List FillEvent
  | 0, buf, _, idx, _ => (buf, idx, [])
  | fuel + 1, buf, cache, idx, video_time =>
      if idx < cache.length then
        if 4096 < buf.available_write then
          let frame := cache.getD idx default
          if frame.pts > video_time + AUDIO_SYNC_THRESHOLD then
            (buf, idx, [])
          else
            let wr := buf.write frame.size
            if 0 < wr.2 then
              let rest := fill_loop fuel wr.1 cache (idx + 1) video_time
              (rest.1, rest.2.1,
                ⟨idx, frame.pts, buf.available_read, buf.available_write⟩ :: rest.2.2)
            else
              (wr.1, idx, [])
        else (buf, idx, [])
      else (buf, idx, [])

/-- `AudioManager::fill_audio_buffer`: return immediately when the buffer
holds more than `AUDIO_BUFFER_SIZE / 4` readable bytes, otherwise run the
fill loop from the current cache index.  Also returns the ghost copy trace. -/
def fill_audio_buffer (st : AudioManagerState) :
    AudioManagerState × List FillEvent :=
  if st.audio_buffer.available_read > AUDIO_BUFFER_SIZE / 4 then
    (st, [])
  else
    let r := fill_loop (st.audio_frame_cache.length - st.audio_cache_index)
      st.audio_buffer st.audio_frame_cache st.audio_cache_index
      st.current_video_time
    ({ st with audio_buffer := r.1, audio_cache_index := r.2.1 }, r.2.2)

lemma findSeekIndexAux_eq_none (cache : List AudioFrame) (target : ℚ)
    (h : ∀ f ∈ cache, f.pts < target - 5 / 100) :
    findSeekIndexAux cache target = none := by
  induction cache with
  | nil => rfl
  | cons f rest ih =>
      have hf := h f (List.mem_cons_self f rest)
      simp only [findSeekIndexAux, if_neg (not_le.mpr hf)]
      rw [ih (fun x hx => h x (List.mem_cons_of_mem f hx))]
      rfl

lemma findSeekIndexAux_found (cache : List AudioFrame) (target : ℚ)
    (hex : ∃ f ∈ cache, target - 5 / 100 ≤ f.pts) :
    ∃ i, findSeekIndexAux cache target = some i ∧ i < cache.length ∧
      target - 5 / 100 ≤ (cache.getD i default).pts ∧
      ∀ j < i, (cache.getD j default).pts < target - 5 / 100 := by
  induction cache with
  | nil => simp at hex
  | cons f rest ih =>
      by_cases hf : target - 5 / 100 ≤ f.pts
      · refine ⟨0, ?_, by simp, by simpa using hf, by omega⟩
        simp [findSeekIndexAux, hf]
      · have hrest : ∃ x ∈ rest, target - 5 / 100 ≤ x.pts := by
          rcases hex with ⟨x, hx, hxp⟩
          rcases List.mem_cons.mp hx with rfl | hx'
          · exact absurd hxp hf
          · exact ⟨x, hx', hxp⟩
        obtain ⟨i, heq, hlt, hp, hj⟩ := ih hrest
        refine ⟨i + 1, ?_, by simpa using hlt, by simpa using hp, ?_⟩
        · simp [findSeekIndexAux, not_le.mp hf |> not_le_of_lt ∘ id, heq]
        · intro j hjlt
          cases j with
          | zero => simpa using not_le.mp hf
          | succ k =>
              simp only [List.getD_cons_succ]
              exact hj k (by omega)

lemma fill_loop_events (fuel : Nat) (buf : RB) (cache : List AudioFrame)
    (idx : Nat) (vt : ℚ) :
    ∀ ev ∈ (fill_loop fuel buf cache idx vt).2.2,
      idx ≤ ev.idx ∧ ev.idx < cache.length ∧
        ev.pts = (cache.getD ev.idx default).pts ∧
        ev.pts ≤ vt + AUDIO_SYNC_THRESHOLD ∧ 4096 < ev.awBefore := by
  induction fuel generalizing buf idx with
  | zero => simp [fill_loop]
  | succ k ih =>
      intro ev hev
      simp only [fill_loop] at hev
      by_cases h1 : idx < cache.length
      · rw [if_pos h1] at hev
        by_cases h2 : 4096 < buf.available_write
        · rw [if_pos h2] at hev
          by_cases h3 : (cache.getD idx default).pts > vt + AUDIO_SYNC_THRESHOLD
          · rw [if_pos h3] at hev
            simp at hev
          · rw [if_neg h3] at hev
            by_cases h4 : 0 < (buf.write (cache.getD idx default).size).2
            · rw [if_pos h4] at hev
              rcases List.mem_cons.mp hev with rfl | hev
              · exact ⟨le_refl _, h1, rfl, not_lt.mp h3, h2⟩
              · obtain ⟨ha, hb, hc, hd, he⟩ :=
                  ih (buf.write (cache.getD idx default).size).1 (idx + 1) ev hev
                exact ⟨by omega, hb, hc, hd, he⟩
            · rw [if_neg h4] at hev
              simp at hev
        · rw [if_neg h2] at hev
          simp at hev
      · rw [if_neg h1] at hev
        simp at hev

lemma fill_loop_order (fuel : Nat) (buf : RB) (cache : List AudioFrame)
    (idx : Nat) (vt : ℚ) :
    ((fill_loop fuel buf cache idx vt).2.2).map (·.idx)
      = List.range' idx ((fill_loop fuel buf cache idx vt).2.2).length := by
  induction fuel generalizing buf idx with
  | zero => simp [fill_loop]
  | succ k ih =>
      simp only [fill_loop]
      by_cases h1 : idx < cache.length
      · rw [if_pos h1]
        by_cases h2 : 4096 < buf.available_write
        · rw [if_pos h2]
          by_cases h3 : (cache.getD idx default).pts > vt + AUDIO_SYNC_THRESHOLD
          · rw [if_pos h3]; simp
          · rw [if_neg h3]
            by_cases h4 : 0 < (buf.write (cache.getD idx default).size).2
            · rw [if_pos h4]
              simp only [List.map_cons, List.length_cons, List.range'_succ]
              rw [ih]
            · rw [if_neg h4]; simp
        · rw [if_neg h2]; simp
      · rw [if_neg h1]; simp

/-- C2. Servicing a seek request (`sync_to_position(pos)` followed by the
feeder loop's `handle_audio_seek`), when some cached chunk satisfies
`pts >= pos - 0.05`: the ring buffer is cleared (`available_read() = 0`
immediately afterwards), the playback clock is re-anchored to `pos` at the
instant of the request, the cache read index lands on the first chunk with
`pts >= pos - 0.05`, and every chunk copied by subsequent buffer filling is
at or after that index. -/
theorem c2_seek_relocates_and_clears (st : AudioManagerState) (pos now : ℚ)
    (hex : ∃ f ∈ st.audio_frame_cache, pos - 5 / 100 ≤ f.pts) :
    (handle_audio_seek (sync_to_position st pos now)).audio_buffer.available_read = 0 ∧
      (handle_audio_seek (sync_to_position st pos now)).audio_clock.pts = pos ∧
      (handle_audio_seek (sync_to_position st pos now)).audio_clock.base_time = now ∧
      ((handle_audio_seek (sync_to_position st pos now)).audio_cache_index
          < st.audio_frame_cache.length ∧
        pos - 5 / 100 ≤ (st.audio_frame_cache.getD
          (handle_audio_seek (sync_to_position st pos now)).audio_cache_index
            default).pts) ∧
      (∀ j < (handle_audio_seek (sync_to_position st pos now)).audio_cache_index,
        (st.audio_frame_cache.getD j default).pts < pos - 5 / 100) ∧
      (∀ ev ∈ (fill_audio_buffer (handle_audio_seek (sync_to_position st pos now))).2,
        (handle_audio_seek (sync_to_position st pos now)).audio_cache_index
          ≤ ev.idx) := by
  obtain ⟨i, heq, hlt, hp, hj⟩ := findSeekIndexAux_found st.audio_frame_cache pos hex
  have hidx : (handle_audio_seek (sync_to_position st pos now)).audio_cache_index = i := by
    simp [handle_audio_seek, sync_to_position, heq]
  refine ⟨?_, rfl, rfl, ?_, ?_, ?_⟩
  · simp [handle_audio_seek, RB.clear, RB.available_read]
  · rw [hidx]
    exact ⟨hlt, hp⟩
  · rw [hidx]
    exact hj
  · intro ev hev
    unfold fill_audio_buffer at hev
    by_cases hgate : (handle_audio_seek
        (sync_to_position st pos now)).audio_buffer.available_read
          > AUDIO_BUFFER_SIZE / 4
    · rw [if_pos hgate] at hev
      simp at hev
    · rw [if_neg hgate] at hev
      exact (fill_loop_events _ _ _ _ _ ev hev).1

/-- Witness for C2 at a concrete two-chunk cache and `pos = 1`. -/
theorem c2_seek_relocates_and_clears_witness :
    (handle_audio_seek (sync_to_position
        ⟨⟨192000, 100, 10⟩, [⟨4096, 0, 1024⟩, ⟨4096, 1, 1024⟩], 0,
          ⟨0, 0⟩, false, 0, 0⟩ 1 2)).audio_buffer.available_read = 0 ∧
      (handle_audio_seek (sync_to_position
        ⟨⟨192000, 100, 10⟩, [⟨4096, 0, 1024⟩, ⟨4096, 1, 1024⟩], 0,
          ⟨0, 0⟩, false, 0, 0⟩ 1 2)).audio_clock.pts = 1 :=
  have h := c2_seek_relocates_and_clears
    ⟨⟨192000, 100, 10⟩, [⟨4096, 0, 1024⟩, ⟨4096, 1, 1024⟩], 0, ⟨0, 0⟩, false, 0, 0⟩
    1 2 ⟨⟨4096, 1, 1024⟩, by simp, by norm_num⟩
  ⟨h.1, h.2.1⟩

/-- C9. If every cached chunk's timestamp is strictly below
`pos - 0.05` (the seek target exceeds the whole cache by more than 50 ms),
servicing the seek leaves the cache read index at 0: filling restarts from
the first chunk of the track. -/
theorem c9_seek_beyond_cache_rewinds_to_start (st : AudioManagerState)
    (pos now : ℚ) (h : ∀ f ∈ st.audio_frame_cache, f.pts < pos - 5 / 100) :
    (handle_audio_seek (sync_to_position st pos now)).audio_cache_index = 0 := by
  simp [handle_audio_seek, sync_to_position,
    findSeekIndexAux_eq_none st.audio_frame_cache pos h]

/-- Witness for C9: a one-chunk cache (pts 0) and a seek to 10 s. -/
theorem c9_seek_beyond_cache_rewinds_to_start_witness :
    (handle_audio_seek (sync_to_position
        ⟨⟨192000, 100, 10⟩, [⟨4096, 0, 1024⟩], 0, ⟨0, 0⟩, false, 0, 0⟩
        10 2)).audio_cache_index = 0 :=
  c9_seek_beyond_cache_rewinds_to_start
    ⟨⟨192000, 100, 10⟩, [⟨4096, 0, 1024⟩], 0, ⟨0, 0⟩, false, 0, 0⟩ 10 2
    (by
      intro f hf
      simp only [List.mem_singleton] at hf
      subst hf
      norm_num)

/-- C3 as stated by the claim: on every top-up pass, each copied chunk both
respects the 40 ms threshold and is copied while the buffer is below 25 %
full (`available_read < AUDIO_BUFFER_SIZE / 4`). -/
def fillCopiesOnlyBelowQuarter : Prop :=
  ∀ st : AudioManagerState, ∀ ev ∈ (fill_audio_buffer st).2,
    ev.pts ≤ st.current_video_time + AUDIO_SYNC_THRESHOLD ∧
      ev.arBefore < AUDIO_BUFFER_SIZE / 4

/-- Counterexample to C3 as stated: from an empty 192000-byte buffer and five
24000-byte chunks at pts 0 with video time 0, one pass copies all five
chunks; the fourth copy happens when `available_read()` is already
72000 ≥ 48000, i.e. the buffer is far above 25 % full.  The 25 % test only
gates entry to the pass; the loop itself runs until fewer than 4097 writable
bytes remain. -/
theorem c3_counterexample_pass_fills_beyond_quarter :
    ¬ fillCopiesOnlyBelowQuarter := by
  intro h
  have hq : ¬ ((AUDIO_SYNC_THRESHOLD : ℚ) < 0) := by
    norm_num [AUDIO_SYNC_THRESHOLD]
  have htrace : (fill_audio_buffer
      ⟨⟨192000, 0, 0⟩,
        [⟨24000, 0, 1024⟩, ⟨24000, 0, 1024⟩, ⟨24000, 0, 1024⟩,
          ⟨24000, 0, 1024⟩, ⟨24000, 0, 1024⟩], 0, ⟨0, 0⟩, false, 0, 0⟩).2
      = [⟨0, 0, 0, 191999⟩, ⟨1, 0, 24000, 167999⟩, ⟨2, 0, 48000, 143999⟩,
          ⟨3, 0, 72000, 119999⟩, ⟨4, 0, 96000, 95999⟩] := by
    simp [fill_audio_buffer, fill_loop, RB.available_read, RB.available_write,
      RB.write, Nat.min_def, hq, AUDIO_BUFFER_SIZE]
  have hev : (⟨3, 0, 72000, 119999⟩ : FillEvent) ∈
      (fill_audio_buffer
        ⟨⟨192000, 0, 0⟩,
          [⟨24000, 0, 1024⟩, ⟨24000, 0, 1024⟩, ⟨24000, 0, 1024⟩,
            ⟨24000, 0, 1024⟩, ⟨24000, 0, 1024⟩], 0, ⟨0, 0⟩, false, 0, 0⟩).2 := by
    rw [htrace]
    simp
  have h3 := h
    ⟨⟨192000, 0, 0⟩,
      [⟨24000, 0, 1024⟩, ⟨24000, 0, 1024⟩, ⟨24000, 0, 1024⟩,
        ⟨24000, 0, 1024⟩, ⟨24000, 0, 1024⟩], 0, ⟨0, 0⟩, false, 0, 0⟩
    ⟨3, 0, 72000, 119999⟩ hev
  have hforbidden : ¬ ((72000 : Nat) < AUDIO_BUFFER_SIZE / 4) := by
    norm_num [AUDIO_BUFFER_SIZE]
  exact hforbidden h3.2

/-- C3 (amended). The feeder loop never copies a chunk whose timestamp
exceeds the reference time plus the 40 ms threshold; the 25 %-full test gates
entry to the pass (a pass with `available_read() > AUDIO_BUFFER_SIZE / 4`
copies nothing and leaves the state unchanged); within a pass chunks are
copied in cache order, consecutively from the current cache index; and every
copy happens with strictly more than 4096 writable bytes available, the pass
stopping at the threshold, at cache exhaustion, or when the room is gone. -/
theorem c3_feeder_never_overshoots_threshold (st : AudioManagerState) :
    (∀ ev ∈ (fill_audio_buffer st).2,
        ev.pts ≤ st.current_video_time + AUDIO_SYNC_THRESHOLD ∧
          ev.pts = (st.audio_frame_cache.getD ev.idx default).pts ∧
          4096 < ev.awBefore) ∧
      (AUDIO_BUFFER_SIZE / 4 < st.audio_buffer.available_read →
        fill_audio_buffer st = (st, [])) ∧
      ((fill_audio_buffer st).2.map (·.idx)
        = List.range' st.audio_cache_index (fill_audio_buffer st).2.length) := by
  refine ⟨?_, ?_, ?_⟩
  · intro ev hev
    unfold fill_audio_buffer at hev
    by_cases hgate : st.audio_buffer.available_read > AUDIO_BUFFER_SIZE / 4
    · rw [if_pos hgate] at hev
      simp at hev
    · rw [if_neg hgate] at hev
      obtain ⟨_, _, hc, hd, he⟩ := fill_loop_events _ _ _ _ _ ev hev
      exact ⟨hd, hc, he⟩
  · intro hgate
    unfold fill_audio_buffer
    rw [if_pos hgate]
  · unfold fill_audio_buffer
    by_cases hgate : st.audio_buffer.available_read > AUDIO_BUFFER_SIZE / 4
    · rw [if_pos hgate]
      simp
    · rw [if_neg hgate]
      exact fill_loop_order _ _ _ _ _

/-- Witness for C3 (amended): with the buffer more than a quarter full
(`available_read = 50000 > 48000`), a pass copies nothing and changes
nothing. -/
theorem c3_feeder_never_overshoots_threshold_witness :
    fill_audio_buffer
        ⟨⟨192000, 50000, 0⟩, [⟨4096, 0, 1024⟩], 0, ⟨0, 0⟩, false, 0, 0⟩
      = (⟨⟨192000, 50000, 0⟩, [⟨4096, 0, 1024⟩], 0, ⟨0, 0⟩, false, 0, 0⟩, []) :=
  (c3_feeder_never_overshoots_threshold
    ⟨⟨192000, 50000, 0⟩, [⟨4096, 0, 1024⟩], 0, ⟨0, 0⟩, false, 0, 0⟩).2.1
    (by decide)
